import Mathlib

/-!
Verification development for the surface resampling / interpolation core of
the process package (src/process/surface.py).  The numeric code is embedded
shallowly over the rationals: numpy arrays become lists, 4x4 homogeneous
affines become an explicit matrix structure, and the external scipy / nibabel
primitives (spline kernels, matrix inverse, vector normalization, barycentric
weight location) are carried around as explicit function parameters, since the
repository treats them as black boxes.
-/

/-- A 3-vector of rationals, modelling one row of an (N, 3) float array. -/
abbrev Vec3 : Type := ℚ × ℚ × ℚ

/-- A homogeneous 4-vector, modelling one row of an (N, 4) coordinate batch. -/
abbrev HVec : Type := ℚ × ℚ × ℚ × ℚ

/-- A triangular face: three vertex indices. -/
abbrev Face : Type := Nat × Nat × Nat

/-- A 4x4 homogeneous affine matrix given by its four rows. -/
structure Mat4 where
  r0 : HVec
  r1 : HVec
  r2 : HVec
  r3 : HVec
deriving DecidableEq

/-- Dot product of two 4-vectors. -/
def dot4 (a b : HVec) : ℚ :=
  a.1 * b.1 + a.2.1 * b.2.1 + a.2.2.1 * b.2.2.1 + a.2.2.2 * b.2.2.2

/-- Apply a 4x4 matrix to a homogeneous point.  A numpy row-vector product
pts @ M.T applies M to every row, so this is the per-point meaning of the
matrix products in surface.py. -/
def mulVec4 (A : Mat4) (p : HVec) : HVec :=
  (dot4 A.r0 p, dot4 A.r1 p, dot4 A.r2 p, dot4 A.r3 p)

/-- The identity affine. -/
def mat4Id : Mat4 :=
  ⟨(1, 0, 0, 0), (0, 1, 0, 0), (0, 0, 1, 0), (0, 0, 0, 1)⟩

/-- The zero affine, used as an out-of-range list default (the Python code
would raise IndexError there; the defaults are never reached under the
length invariants assumed by the theorems). -/
def mat4Zero : Mat4 :=
  ⟨(0, 0, 0, 0), (0, 0, 0, 0), (0, 0, 0, 0), (0, 0, 0, 0)⟩

instance : Inhabited Mat4 := ⟨mat4Zero⟩

/-- A 3-D intensity volume: its shape and a total value function.  Models a
3-D numpy array loaded from a NIfTI file. -/
structure Grid3 where
  shape : Nat × Nat × Nat
  val : Nat → Nat → Nat → ℚ

/-- The empty volume, used as an out-of-range list default. -/
def grid3Empty : Grid3 :=
  ⟨(0, 0, 0), fun _ _ _ => 0⟩

instance : Inhabited Grid3 := ⟨grid3Empty⟩

/-- A dense displacement field for one volume: the three scalar component
volumes obtained by slicing the (X, Y, Z, 1, 3) array as [:, :, :, 0, j]. -/
abbrev Warp3 : Type := Grid3 × Grid3 × Grid3

/-- The first three components of a homogeneous point (cc.T[:3]). -/
def first3 (p : HVec) : Vec3 :=
  (p.1, p.2.1, p.2.2.1)

/-- External numeric primitives used by surface.py and treated as black
boxes by the embedding: the in-bounds spline evaluation underlying
scipy.ndimage.map_coordinates, scipy.ndimage.spline_filter,
numpy.linalg.inv, and division of a 3-vector by its Euclidean norm
(irrational in general, hence abstract over the rationals). -/
structure Prims where
  kernel : Grid3 → Vec3 → Nat → ℚ
  spline_filter : Grid3 → Nat → Grid3
  inv : Mat4 → Mat4
  normalize3 : Vec3 → Vec3

/-- Squared Euclidean distance between two 3-vectors. -/
def sqDist (a b : Vec3) : ℚ :=
  (a.1 - b.1) ^ 2 + (a.2.1 - b.2.1) ^ 2 + (a.2.2 - b.2.2) ^ 2

/-- Index of a minimal element of a list of rationals (0 for the empty
list).  Models the index returned by a cKDTree nearest-neighbor query;
scipy does not document tie-breaking, the first minimum is used here. -/
def argminIdx : List ℚ → Nat
  | [] => 0
  | [_] => 0
  | x :: y :: l =>
    let j := argminIdx (y :: l)
    if x ≤ (y :: l).getD j 0 then 0 else j + 1

/-- Nearest point of a list to a query point, by index.  Models
cKDTree(pts).query(q)[1]. -/
def nearestIdx (pts : List Vec3) (q : Vec3) : Nat :=
  argminIdx (pts.map (fun p => sqDist p q))

/-- The forward nearest-neighbor index of target vertex t:
source_tree.query(target_sphere)[1][t] in nnfr_transformation. -/
def forward_index (src tgt : List Vec3) (t : Nat) : Nat :=
  nearestIdx src (tgt.getD t ((0 : ℚ), (0 : ℚ), (0 : ℚ)))

/-- Source vertices with no forward hit:
np.setdiff1d(np.arange(ns), np.unique(forward_indices)), in ascending
order. -/
def remainingList (src tgt : List Vec3) : List Nat :=
  (List.range src.length).filter
    (fun s => (List.range tgt.length).all (fun t => decide (forward_index src tgt t ≠ s)))

/-- Nearest target vertex of source vertex s:
target_tree.query(source_sphere[remaining])[1] for s in remaining. -/
def reverse_index (src tgt : List Vec3) (s : Nat) : Nat :=
  nearestIdx tgt (src.getD s ((0 : ℚ), (0 : ℚ), (0 : ℚ)))

/-- Entry (s, t) of the lil accumulation in nnfr_transformation before
normalization: one unit from the forward pass when s is the nearest source
vertex of t, plus one unit from the reverse pass when s had no forward hit
and t is the nearest target vertex of s. -/
def T_raw (src tgt : List Vec3) (rev : Bool) (s t : Nat) : ℚ :=
  (if forward_index src tgt t = s then 1 else 0) +
    (if rev = true ∧ s ∈ remainingList src tgt ∧ reverse_index src tgt s = t then 1 else 0)

/-- Column mass t_counts[t] = T.sum(axis=0)[t]. -/
def t_count (src tgt : List Vec3) (rev : Bool) (t : Nat) : ℚ :=
  ((List.range src.length).map (fun s => T_raw src tgt rev s t)).sum

/-- Entry (s, t) of the normalized transport operator returned by
nnfr_transformation: the raw accumulation scaled by the reciprocal of its
column mass (T @ sparse.diags(np.reciprocal(t_counts))). -/
def nnfr_transformation (src tgt : List Vec3) (rev : Bool) (s t : Nat) : ℚ :=
  T_raw src tgt rev s t * (t_count src tgt rev t)⁻¹

/-- Whether every voxel of the slice of g at index i along axis dim is zero:
np.all(brainmask == 0, axis=(other axes))[i] in find_truncation_boundaries. -/
def sliceZero (g : Grid3) (dim i : Nat) : Bool :=
  if dim = 0 then
    (List.range g.shape.2.1).all (fun j =>
      (List.range g.shape.2.2).all (fun k => decide (g.val i j k = 0)))
  else if dim = 1 then
    (List.range g.shape.1).all (fun a =>
      (List.range g.shape.2.2).all (fun k => decide (g.val a i k = 0)))
  else
    (List.range g.shape.1).all (fun a =>
      (List.range g.shape.2.1).all (fun j => decide (g.val a j i = 0)))

/-- Size of the volume along axis dim. -/
def dimSize (g : Grid3) (dim : Nat) : Nat :=
  if dim = 0 then g.shape.1 else if dim = 1 then g.shape.2.1 else g.shape.2.2

/-- Result of the forward scan in find_truncation_boundaries: the loop keeps
overwriting boundaries[dim, 0] with i while slices stay all-zero and breaks
at the first non-empty slice, so it ends at the LAST index of the leading
all-zero run (0 when the run is empty, matching the zero initialization). -/
def lowerRaw (g : Grid3) (dim : Nat) : Nat :=
  ((List.range (dimSize g dim)).takeWhile (fun i => sliceZero g dim i)).length - 1

/-- Number of trailing all-zero slices along axis dim. -/
def trailCount (g : Grid3) (dim : Nat) : Nat :=
  ((List.range (dimSize g dim)).reverse.takeWhile (fun i => sliceZero g dim i)).length

/-- Result of the backward scan in find_truncation_boundaries: the loop walks
indices downward while slices are all-zero, so it ends at the FIRST index of
the trailing all-zero run, or stays at its zero initialization when the last
slice is non-empty. -/
def upperRaw (g : Grid3) (dim : Nat) : Nat :=
  if trailCount g dim = 0 then 0 else dimSize g dim - trailCount g dim

/-- One row of the boundaries array after the margin arithmetic of
find_truncation_boundaries: np.maximum(b0 - margin, 0) and
np.minimum(b1 + margin + 1, shape).  Natural subtraction models the clamp
at zero of the int array. -/
def truncation_bound (g : Grid3) (margin : Nat) (dim : Nat) : Nat × Nat :=
  (lowerRaw g dim - margin, min (upperRaw g dim + margin + 1) (dimSize g dim))

/-- find_truncation_boundaries(brainmask, margin): the three per-axis
half-open index ranges. -/
def find_truncation_boundaries (g : Grid3) (margin : Nat) :
    (Nat × Nat) × (Nat × Nat) × (Nat × Nat) :=
  (truncation_bound g margin 0, truncation_bound g margin 1, truncation_bound g margin 2)

/-- The flattened voxel enumeration np.mgrid[l0:u0, l1:u1, l2:u2, 1:2]
reshaped to rows (i, j, k, 1) in C order (first axis slowest). -/
def mgridBox (l0 u0 l1 u1 l2 u2 : Nat) : List HVec :=
  (List.range' l0 (u0 - l0)).bind (fun i =>
    (List.range' l1 (u1 - l1)).bind (fun j =>
      (List.range' l2 (u2 - l2)).map (fun k =>
        ((i : ℚ), (j : ℚ), (k : ℚ), (1 : ℚ)))))

/-- canonical_volume_coords(brainmask, margin).  The nibabel call
as_closest_canonical is an external primitive; this definition receives the
already-canonicalized mask data g and its affine.  As in the source, the
margin parameter is NOT forwarded: find_truncation_boundaries is called with
its own default margin of 2.  Every enumerated voxel (i, j, k, 1) is pushed
through the canonical affine (coords.reshape(4, -1).T @ affine.T), and the
returned shape is the list of the three box extents. -/
def canonical_volume_coords (g : Grid3) (affine : Mat4) (margin : Nat) :
    List HVec × List Nat :=
  let _ := margin
  let b := find_truncation_boundaries g 2
  ((mgridBox b.1.1 b.1.2 b.2.1.1 b.2.1.2 b.2.2.1 b.2.2.2).map (fun p => mulVec4 affine p),
    [b.1.2 - b.1.1, b.2.1.2 - b.2.1.1, b.2.2.2 - b.2.2.1])

/-- Index of the first slice along axis dim that contains a nonzero voxel.
This follows the wording of the specification (lower edge of the tightest
axis-aligned bounding box of the nonzero mask voxels). -/
def spec_first_nonzero (g : Grid3) (dim : Nat) : Nat :=
  (List.range (dimSize g dim)).findIdx (fun i => ! sliceZero g dim i)

/-- Index of the last slice along axis dim that contains a nonzero voxel
(upper edge of the tightest bounding box), following the specification. -/
def spec_last_nonzero (g : Grid3) (dim : Nat) : Nat :=
  dimSize g dim - 1 - (List.range (dimSize g dim)).reverse.findIdx (fun i => ! sliceZero g dim i)

/-- The half-open index range along axis dim of the tightest bounding box
expanded by e voxels per side and clamped to the volume bounds, following
the specification wording. -/
def spec_box (g : Grid3) (dim : Nat) (e : Nat) : Nat × Nat :=
  (spec_first_nonzero g dim - e, min (spec_last_nonzero g dim + e + 1) (dimSize g dim))

/-- The volume grid coordinate generator as the specification describes it,
with an explicit per-side expansion e: enumerate every integer voxel
coordinate of the expanded clamped bounding box, convert through the
canonical affine, and return the 3-D box dimensions as the shape. -/
def spec_volume_coords (g : Grid3) (affine : Mat4) (e : Nat) : List HVec × List Nat :=
  let b0 := spec_box g 0 e
  let b1 := spec_box g 1 e
  let b2 := spec_box g 2 e
  ((mgridBox b0.1 b0.2 b1.1 b1.2 b2.1 b2.2).map (fun p => mulVec4 affine p),
    [b0.2 - b0.1, b1.2 - b1.1, b2.2 - b2.1])

/-- np.linspace(0, 1, 6), the default depth fractions of both surface
coordinate generators. -/
def default_fracs : List ℚ :=
  (List.range 6).map (fun i => (i : ℚ) / 5)

/-- Append the homogeneous coordinate to a 3-vector. -/
def homog (v : Vec3) : HVec :=
  (v.1, v.2.1, v.2.2, 1)

/-- surface_coords_normal(white_coords, c_ras, normals, thicknesses, fracs):
one point white + c_ras + normal * thickness * frac per vertex and fraction,
flattened vertex-major with an appended homogeneous 1, together with the
numpy broadcast shape (n_vertices, n_fracs) of equal-length per-vertex
inputs. -/
def surface_coords_normal (white : List Vec3) (c_ras : Vec3) (normals : List Vec3)
    (thicknesses : List ℚ) (fracs : List ℚ) : List HVec × List Nat :=
  ((white.zip (normals.zip thicknesses)).bind (fun wnt =>
      fracs.map (fun f => homog (wnt.1 + c_ras + (wnt.2.2 * f) • wnt.2.1))),
    [white.length, fracs.length])

/-- surface_coords_pial(white_coords, c_ras, pial_coords, fracs): linear
interpolation between white + c_ras and pial + c_ras at each fraction, same
flattening and shape convention as surface_coords_normal. -/
def surface_coords_pial (white : List Vec3) (c_ras : Vec3) (pial : List Vec3)
    (fracs : List ℚ) : List HVec × List Nat :=
  ((white.zip pial).bind (fun wp =>
      fracs.map (fun f => homog ((1 - f) • (wp.1 + c_ras) + f • (wp.2 + c_ras)))),
    [white.length, fracs.length])

/-- Whether a fractional voxel coordinate lies inside the extent of a 3-D
array (between 0 and n - 1 in every axis). -/
def inBoundsB (sh : Nat × Nat × Nat) (c : Vec3) : Bool :=
  decide (0 ≤ c.1 ∧ c.1 ≤ (sh.1 : ℚ) - 1 ∧
    0 ≤ c.2.1 ∧ c.2.1 ≤ (sh.2.1 : ℚ) - 1 ∧
    0 ≤ c.2.2 ∧ c.2.2 ≤ (sh.2.2 : ℚ) - 1)

/-- Model of scipy.ndimage.map_coordinates at one point under the keyword
arguments used by surface.py (mode is the default constant mode): a
coordinate inside the array extent is evaluated by the abstract in-bounds
spline kernel, a coordinate outside it yields the constant fill value cval.
surface.py calls this with cval = nan for intensity sampling, modelled as
none, and with the scipy default cval = 0.0 for displacement sampling,
modelled as some 0. -/
def map_coordinates (kernel : Grid3 → Vec3 → Nat → ℚ) (g : Grid3) (c : Vec3)
    (order : Nat) (cval : Option ℚ) : Option ℚ :=
  if inBoundsB g.shape c then some (kernel g c order) else cval

/-- Model of np.nanmean along the trailing axis at one output location: fold
up the sum and count of the non-missing values; an all-missing row yields
missing (np.nanmean of an empty slice is nan), otherwise the mean of the
non-missing values. -/
def nanmeanRow (row : List (Option ℚ)) : Option ℚ :=
  let sc := row.foldl
    (fun acc x => match x with
      | some v => (acc.1 + v, acc.2 + 1)
      | none => acc) ((0 : ℚ), (0 : Nat))
  if sc.2 = 0 then none else some (sc.1 / (sc.2 : ℚ))

/-- Reshape a flat sample vector into rows of length f (the trailing-axis
grouping of numpy reshape in C order). -/
def reshape_rows (f : Nat) (l : List (Option ℚ)) : List (List (Option ℚ)) :=
  (List.range (l.length / f)).map (fun r => (l.drop (r * f)).take f)

/-- The displacement correction applied to one point inside the per-volume
loop of interpolate_original_space: ijk = cc @ inv(warp_affine).T once, then
for j in range(3) the j-th displacement component is sampled at ijk with
spline order 1 (scipy default cval 0.0) and subtracted from coordinate j;
the homogeneous coordinate is untouched. -/
def applyWarp (P : Prims) (w : Warp3) (wAff : Mat4) (p : HVec) : HVec :=
  let ijk := first3 (mulVec4 (P.inv wAff) p)
  let d0 := (map_coordinates P.kernel w.1 ijk 1 (some 0)).getD 0
  let d1 := (map_coordinates P.kernel w.2.1 ijk 1 (some 0)).getD 0
  let d2 := (map_coordinates P.kernel w.2.2 ijk 1 (some 0)).getD 0
  (p.1 - d0, p.2.1 - d1, p.2.2.1 - d2, p.2.2.2)

/-- Componentwise difference of homogeneous points. -/
def hvec_sub (a b : HVec) : HVec :=
  (a.1 - b.1, a.2.1 - b.2.1, a.2.2.1 - b.2.2.1, a.2.2.2 - b.2.2.2)

/-- The displacement vector the specification describes for one point: the
point is converted to the voxel grid of the field through the inverse of the
field affine, each of the three displacement components is sampled there
with interpolation order 1 (independently of the requested intensity
order), and nothing is contributed to the homogeneous coordinate. -/
def displacement_lookup (P : Prims) (w : Warp3) (wAff : Mat4) (p : HVec) : HVec :=
  let ijk := first3 (mulVec4 (P.inv wAff) p)
  ((map_coordinates P.kernel w.1 ijk 1 (some 0)).getD 0,
    (map_coordinates P.kernel w.2.1 ijk 1 (some 0)).getD 0,
    (map_coordinates P.kernel w.2.2 ijk 1 (some 0)).getD 0, 0)

/-- Intensity sampling of one transformed point from one source volume:
map_coordinates(data, cc.T[:3], order=order, prefilter=False, cval=np.nan),
with the nan fill value modelled as the missing value none. -/
def sample_volume (P : Prims) (data : Grid3) (order : Nat) (p : HVec) : Option ℚ :=
  map_coordinates P.kernel data (first3 p) order none

/-- Body of the per-volume loop of interpolate_original_space for volume i:
optionally undo the non-linear distortion, apply the head-motion affine and
the inverse of the volume affine, sample the volume, reshape to the output
shape and collapse a trailing fraction axis by nanmean when the shape is
2-dimensional.  A 3-dimensional shape keeps the flat sample vector (the
reshape is pure bookkeeping in the list model). -/
def volume_interp (P : Prims) (coords2 : List HVec) (shape : List Nat) (order : Nat)
    (warp_data : Option (List Warp3)) (warp_affines hmc : List Mat4)
    (i : Nat) (data : Grid3) (affine : Mat4) : List (Option ℚ) :=
  let cc := coords2
  let cc := match warp_data with
    | none => cc
    | some wd => cc.map (applyWarp P (wd.getD i default) (warp_affines.getD i mat4Zero))
  let cc := cc.map (mulVec4 (hmc.getD i mat4Zero))
  let cc := cc.map (mulVec4 (P.inv affine))
  let interp := cc.map (sample_volume P data order)
  if shape.length = 2 then (reshape_rows (shape.getD 1 0) interp).map nanmeanRow
  else interp

/-- interpolate_original_space(nii_data, nii_affines, coords, shape, lta,
ref_to_t1, hmc, warp_data, warp_affines, interp_kwargs): the coordinate
batch is first pushed through coords @ (lta.T @ ref_to_t1.T), which applies
lta and then ref_to_t1 to every point, and the per-volume results over
zip(nii_data, nii_affines) are stacked into a list. -/
def interpolate_original_space (P : Prims) (nii_data : List Grid3)
    (nii_affines : List Mat4) (coords : List HVec) (shape : List Nat)
    (lta ref_to_t1 : Mat4) (hmc : List Mat4) (warp_data : Option (List Warp3))
    (warp_affines : List Mat4) (order : Nat) : List (List (Option ℚ)) :=
  let coords2 := coords.map (fun p => mulVec4 ref_to_t1 (mulVec4 lta p))
  (nii_data.zip nii_affines).enum.map (fun ida =>
    volume_interp P coords2 shape order warp_data warp_affines hmc ida.1 ida.2.1 ida.2.2)

/-- Cross product of two 3-vectors. -/
def cross3 (a b : Vec3) : Vec3 :=
  (a.2.1 * b.2.2 - a.2.2 * b.2.1, a.2.2 * b.1 - a.1 * b.2.2, a.1 * b.2.1 - a.2.1 * b.1)

/-- In-place accumulation normals[i] += v on a list of vectors. -/
def listAdd (l : List Vec3) (i : Nat) (v : Vec3) : List Vec3 :=
  l.set i (l.getD i 0 + v)

/-- compute_vertex_normals_sine_weight(coords, faces).  For each face the
rolled edge array gives the unit edges (c2 - c0, c0 - c1, c1 - c2); the
cross products of consecutive edge pairs are accumulated into the three
vertices, and every accumulated vector is finally normalized.  Unit-length
normalization is the abstract primitive P.normalize3. -/
def compute_vertex_normals_sine_weight (P : Prims) (coords : List Vec3)
    (faces : List Face) : List Vec3 :=
  let acc := faces.foldl
    (fun ns f =>
      let c0 := coords.getD f.1 0
      let c1 := coords.getD f.2.1 0
      let c2 := coords.getD f.2.2 0
      let e0 := P.normalize3 (c2 - c0)
      let e1 := P.normalize3 (c0 - c1)
      let e2 := P.normalize3 (c1 - c2)
      let ns := listAdd ns f.1 (cross3 e0 e1)
      let ns := listAdd ns f.2.1 (cross3 e1 e2)
      listAdd ns f.2.2 (cross3 e2 e0))
    (List.replicate coords.length (0 : Vec3))
  acc.map P.normalize3

/-- compute_vertex_normals_equal_weight(coords, faces): one normalized face
normal cross(c1 - c0, c2 - c1) accumulated equally into the three face
vertices, then per-vertex normalization. -/
def compute_vertex_normals_equal_weight (P : Prims) (coords : List Vec3)
    (faces : List Face) : List Vec3 :=
  let acc := faces.foldl
    (fun ns f =>
      let c0 := coords.getD f.1 0
      let c1 := coords.getD f.2.1 0
      let c2 := coords.getD f.2.2 0
      let n := P.normalize3 (cross3 (c1 - c0) (c2 - c1))
      let ns := listAdd ns f.1 n
      let ns := listAdd ns f.2.1 n
      listAdd ns f.2.2 n)
    (List.replicate coords.length (0 : Vec3))
  acc.map P.normalize3

/-- The native-to-standard transport operator as stored in a space: its
(rows, columns) dimensions and its entries. -/
abbrev Transport : Type := (Nat × Nat) × (Nat → Nat → ℚ)

/-- A named per-hemisphere space, modelling the Python dict: a key that may
be absent from the dict is an Option field holding none. -/
structure SpaceData where
  name : String
  white : List Vec3
  pial : List Vec3
  faces : Option (List Face)
  thickness : Option (List ℚ)
  sphere_reg : Option (List Vec3)
  normals_sine : Option (List Vec3)
  normals_equal : Option (List Vec3)
  coords_normals_sine : Option (List HVec)
  coords_normals_equal : Option (List HVec)
  coords_pial : Option (List HVec)
  shape : Option (List Nat)
  to_fsavg : Option Transport

/-- External primitive of the separate surface module (imported by
surface.py, not part of this repository): Surface(sphere, faces,
is_sphere=True).compute_barycentric_weights(new_coords) after
compute_vecs_for_barycentric, returning the containing-face index and the
three barycentric weights per query point. -/
structure SurfacePrim where
  compute_barycentric_weights : List Vec3 → List Face → List Vec3 → List Nat × List Vec3

/-- The weighted blend np.sum(values[faces[f_indices]] * weights, axis=1)
used by Hemisphere.resample to transport a per-vertex field to the query
points. -/
def barycentric_blend (values : List Vec3) (faces : List Face)
    (fw : List Nat × List Vec3) : List Vec3 :=
  (fw.1.zip fw.2).map (fun iw =>
    let f := faces.getD iw.1 (0, 0, 0)
    iw.2.1 • values.getD f.1 0 + iw.2.2.1 • values.getD f.2.1 0 +
      iw.2.2.2 • values.getD f.2.2 0)

/-- Hemisphere.resample(space_name, new_coords, new_faces): barycentric
weights are located on the native registration sphere, the white and pial
coordinate fields (and nothing else) are blended onto the new topology, the
new faces are stored when given, and the result is stored under space_name.
No sampling coordinates, shape, or transport operator are computed here. -/
def Hemisphere.resample (S : SurfacePrim) (native : SpaceData) (space_name : String)
    (new_coords : List Vec3) (new_faces : Option (List Face)) : SpaceData :=
  let fw := S.compute_barycentric_weights (native.sphere_reg.getD [])
    (native.faces.getD []) new_coords
  { name := space_name,
    white := barycentric_blend native.white (native.faces.getD []) fw,
    pial := barycentric_blend native.pial (native.faces.getD []) fw,
    faces := new_faces,
    thickness := none, sphere_reg := none,
    normals_sine := none, normals_equal := none,
    coords_normals_sine := none, coords_normals_equal := none,
    coords_pial := none, shape := none, to_fsavg := none }

/-- Hemisphere.compute_coordinates(space_name): for the native space both
normal-offset coordinate sets are built and their shapes asserted equal;
for every space the pial-interpolated coordinates are built and the shape
asserted against (or stored into) the shape key.  An assertion failure or a
missing dict key becomes an error value. -/
def Hemisphere.compute_coordinates (P : Prims) (c_ras : Vec3) (space : SpaceData) :
    Except String SpaceData :=
  if space.name = "native" then
    match space.faces, space.thickness with
    | some fc, some th =>
      let nsine := compute_vertex_normals_sine_weight P space.white fc
      let nequal := compute_vertex_normals_equal_weight P space.white fc
      let cs := surface_coords_normal space.white c_ras nsine th default_fracs
      let ce := surface_coords_normal space.white c_ras nequal th default_fracs
      if ce.2 = cs.2 then
        let cp := surface_coords_pial space.white c_ras space.pial default_fracs
        if cp.2 = cs.2 then
          Except.ok { space with
            normals_sine := some nsine, normals_equal := some nequal,
            coords_normals_sine := some cs.1, coords_normals_equal := some ce.1,
            coords_pial := some cp.1, shape := some cs.2 }
        else Except.error "AssertionError"
      else Except.error "AssertionError"
    | _, _ => Except.error "KeyError"
  else
    let cp := surface_coords_pial space.white c_ras space.pial default_fracs
    match space.shape with
    | some sh =>
      if cp.2 = sh then Except.ok { space with coords_pial := some cp.1 }
      else Except.error "AssertionError"
    | none => Except.ok { space with coords_pial := some cp.1, shape := some cp.2 }

/-- Hemisphere.compute_transformation: the nnfr operator from the native
registration sphere to the fsaverage sphere is stored, on the native space
only, under the to_fsavg key. -/
def Hemisphere.compute_transformation (native : SpaceData) (fsavg_sphere : List Vec3) :
    SpaceData :=
  let T : Transport :=
    (((native.sphere_reg.getD []).length, fsavg_sphere.length),
      fun s t => nnfr_transformation (native.sphere_reg.getD []) fsavg_sphere true s t)
  { native with to_fsavg := some T }

/-- The per-subject state an Interpolator holds after prepare: everything
the source assigns to self, with the lazily filled prefilter cache as an
association list keyed by interpolation order. -/
structure InterpState where
  vol_coords : List HVec
  vol_shape : List Nat
  hmc : List Mat4
  ref_to_t1 : Mat4
  lta : Mat4
  nii_data : List Grid3
  nii_affines : List Mat4
  filtered : List (Nat × List Grid3)
  warp_data : List Warp3
  warp_affines : List Mat4

/-- A snapshot of the per-subject working directory as prepare reads it:
the canonicalized brain mask with its affine (nib.load followed by the
external as_closest_canonical), the loaded transform files, and the sorted
glob results for the split volumes and the displacement fields together
with their loaded contents. -/
structure WorkDir where
  brainmask_data : Grid3
  brainmask_affine : Mat4
  hmc : List Mat4
  ref_to_t1 : Mat4
  lta : Mat4
  nii_fns : List (Grid3 × Mat4)
  warp_fns : List (Warp3 × Mat4)

/-- Interpolator.prepare(orders): build the volumetric sampling grid from
the brain mask, keep the transform chain, load every split volume, eagerly
prefilter for every requested order above 1, and load every displacement
field.  The statement assert len(nii_fns) == len(warp_fns) becomes an error
value when the two glob results disagree in length. -/
def Interpolator.prepare (P : Prims) (wd : WorkDir) (orders : List Nat) :
    Except String InterpState :=
  let vc := canonical_volume_coords wd.brainmask_data wd.brainmask_affine 2
  if wd.nii_fns.length = wd.warp_fns.length then
    let nii_data := wd.nii_fns.map Prod.fst
    let filtered := (orders.filter (fun o => 1 < o)).foldl
      (fun acc o =>
        if (acc.lookup o).isSome then acc
        else acc ++ [(o, nii_data.map (fun g => P.spline_filter g o))]) []
    Except.ok
      { vol_coords := vc.1, vol_shape := vc.2,
        hmc := wd.hmc, ref_to_t1 := wd.ref_to_t1, lta := wd.lta,
        nii_data := nii_data, nii_affines := wd.nii_fns.map Prod.snd,
        filtered := filtered,
        warp_data := wd.warp_fns.map Prod.fst,
        warp_affines := wd.warp_fns.map Prod.snd }
  else Except.error "AssertionError"

/-- Interpolator._get_filtered_data(order): the prefiltered copies for an
order above 1 (computing them on demand when the cache misses), the raw
data otherwise.  The cache write-back is mutation of self and is not
threaded through the value model. -/
def Interpolator.get_filtered_data (P : Prims) (st : InterpState) (order : Nat) :
    List Grid3 :=
  if 1 < order then
    match st.filtered.lookup order with
    | some d => d
    | none => st.nii_data.map (fun g => P.spline_filter g order)
  else st.nii_data

/-- The dict lookup space[coords_ + projection_type] in
Interpolator.interpolate_surface. -/
def space_coords_lookup (space : SpaceData) (projection_type : String) :
    Option (List HVec) :=
  if projection_type = "normals_sine" then space.coords_normals_sine
  else if projection_type = "normals_equal" then space.coords_normals_equal
  else if projection_type = "pial" then space.coords_pial
  else none

/-- Product of one per-volume result row with the sparse transport operator
(interp @ space[to_fsavg]): structural zeros of the sparse matrix are
skipped, entries met through a missing sample make the output entry
missing (nan arithmetic). -/
def transport_apply (T : Transport) (row : List (Option ℚ)) : List (Option ℚ) :=
  (List.range T.1.2).map (fun t =>
    (List.range T.1.1).foldl
      (fun acc s =>
        if T.2 s t = 0 then acc
        else match acc, row.getD s none with
          | some a, some v => some (a + v * T.2 s t)
          | _, _ => none)
      (some 0))

/-- Interpolator.interpolate_surface(space, projection_type, standard_space,
order): run the volumetric interpolator on the precomputed coordinate set
selected by projection_type with the shape stored in the space, then
optionally right-multiply by the native-to-standard transport operator.
Every dict access of a key the space does not hold becomes a KeyError
value. -/
def Interpolator.interpolate_surface (P : Prims) (st : InterpState)
    (space : SpaceData) (projection_type : String) (standard_space : Bool)
    (order : Nat) : Except String (List (List (Option ℚ))) :=
  let data := Interpolator.get_filtered_data P st order
  match space_coords_lookup space projection_type with
  | none => Except.error "KeyError"
  | some coords =>
    match space.shape with
    | none => Except.error "KeyError"
    | some sh =>
      let interp := interpolate_original_space P data st.nii_affines coords sh
        st.lta st.ref_to_t1 st.hmc (some st.warp_data) st.warp_affines order
      if standard_space then
        match space.to_fsavg with
        | none => Except.error "KeyError"
        | some T => Except.ok (interp.map (transport_apply T))
      else Except.ok interp

/-- Modelled from the spec: the src copy of surface.py is truncated and
ends mid-function at the interpolate_original_space call of
interpolate_volume (the final newline and the trailing return of the
computed array are missing from the file), so the return of the stacked
per-volume result described by the specification sentence about
interpolate_volume(order) is modelled here; the body above it is
translated from the source.  The function runs the volumetric interpolator
against the whole-brain voxel grid built by prepare, with no mesh
transport step. -/
def Interpolator.interpolate_volume (P : Prims) (st : InterpState) (order : Nat) :
    List (List (Option ℚ)) :=
  let data := Interpolator.get_filtered_data P st order
  interpolate_original_space P data st.nii_affines st.vol_coords st.vol_shape
    st.lta st.ref_to_t1 st.hmc (some st.warp_data) st.warp_affines order

/-- Concrete 5x3x3 brain mask holding a single nonzero voxel at (2, 1, 1),
clear of every volume boundary; used to instantiate boundary theorems. -/
def exMask533 : Grid3 :=
  ⟨(5, 3, 3), fun i j k => if i = 2 ∧ j = 1 ∧ k = 1 then 1 else 0⟩

/-- A concrete primitive set: zero kernel, identity prefilter, identity
matrix inverse, identity normalization; used to instantiate theorems. -/
def exPrims : Prims :=
  ⟨fun _ _ _ => 0, fun g _ => g, id, id⟩

/-- A concrete primitive set whose kernel returns the requested order. -/
def exPrimsOrder : Prims :=
  ⟨fun _ _ o => (o : ℚ), fun g _ => g, id, id⟩

/-- A concrete primitive set whose kernel agrees with exPrimsOrder at order
1 and disagrees elsewhere. -/
def exPrimsOne : Prims :=
  ⟨fun _ _ o => if o = 1 then 1 else 99, fun g _ => g, id, id⟩

/-- A concrete one-vertex native space with all loaded fields present. -/
def exNativeSpace : SpaceData :=
  { name := "native",
    white := [((0 : ℚ), (0 : ℚ), (0 : ℚ))],
    pial := [((0 : ℚ), (0 : ℚ), (1 : ℚ))],
    faces := some [(0, 0, 0)],
    thickness := some [1],
    sphere_reg := some [((0 : ℚ), (0 : ℚ), (1 : ℚ))],
    normals_sine := none, normals_equal := none,
    coords_normals_sine := none, coords_normals_equal := none,
    coords_pial := none, shape := none, to_fsavg := none }

/-- A concrete barycentric primitive: every query point is assigned face 0
with full weight on its first vertex. -/
def exSurfacePrim : SurfacePrim :=
  ⟨fun _ _ q => (q.map (fun _ => 0), q.map (fun _ => ((1 : ℚ), (0 : ℚ), (0 : ℚ))))⟩

/-- A concrete empty interpolation state. -/
def exInterpState : InterpState :=
  ⟨[], [], [], mat4Id, mat4Id, [], [], [], [], []⟩

/-- The concrete space obtained by resampling the one-vertex native space
onto a one-vertex topology and computing its coordinates. -/
def exResampledComputed : SpaceData :=
  (Hemisphere.compute_coordinates exPrims ((0 : ℚ), (0 : ℚ), (0 : ℚ))
    (Hemisphere.resample exSurfacePrim exNativeSpace "std"
      [((0 : ℚ), (0 : ℚ), (1 : ℚ))] (some [(0, 0, 0)]))).toOption.getD exNativeSpace

/-- A concrete working directory holding one split volume and no
displacement field files. -/
def exWorkDirNoWarp : WorkDir :=
  ⟨grid3Empty, mat4Id, [], mat4Id, mat4Id, [(grid3Empty, mat4Id)], []⟩

/-- A concrete one-volume interpolation state. -/
def exInterpState1 : InterpState :=
  ⟨[((0 : ℚ), (0 : ℚ), (0 : ℚ), (1 : ℚ))], [1, 1, 1], [mat4Id], mat4Id, mat4Id,
    [grid3Empty], [mat4Id], [], [(grid3Empty, grid3Empty, grid3Empty)], [mat4Id]⟩

/-! Helper lemmas. -/

/-- Length of the initial all-true run equals the index of the first
failure. -/
theorem takeWhile_length_findIdx {α : Type} (p : α → Bool) (l : List α) :
    (l.takeWhile p).length = l.findIdx (fun a => ! p a) := by
  induction l with
  | nil => simp
  | cons a t ih =>
    by_cases h : p a
    · simp [List.takeWhile_cons, h, List.findIdx_cons, ih]
    · simp [List.takeWhile_cons, h, List.findIdx_cons]

/-- argminIdx stays inside a nonempty list. -/
theorem argminIdx_lt_length : ∀ (l : List ℚ), l ≠ [] → argminIdx l < l.length := by
  intro l
  induction l with
  | nil => simp
  | cons x t ih =>
    cases t with
    | nil => intro _; simp [argminIdx]
    | cons y l2 =>
      intro _
      show argminIdx (x :: y :: l2) < (x :: y :: l2).length
      rw [argminIdx]
      split
      · simp
      · have := ih (by simp)
        simpa using Nat.succ_lt_succ this

/-- The element at argminIdx is minimal. -/
theorem argminIdx_getD_le : ∀ (l : List ℚ) (i : Nat), i < l.length →
    l.getD (argminIdx l) 0 ≤ l.getD i 0 := by
  intro l
  induction l with
  | nil => simp
  | cons x t ih =>
    cases t with
    | nil =>
      intro i hi
      cases i with
      | zero => simp [argminIdx]
      | succ i2 => simp at hi
    | cons y l2 =>
      intro i hi
      rw [argminIdx]
      split
      · rename_i hle
        cases i with
        | zero => simp
        | succ i2 =>
          have hi2 : i2 < (y :: l2).length := by simpa using hi
          calc (x :: y :: l2).getD 0 0 = x := rfl
            _ ≤ (y :: l2).getD (argminIdx (y :: l2)) 0 := hle
            _ ≤ (y :: l2).getD i2 0 := ih i2 hi2
            _ = (x :: y :: l2).getD (i2 + 1) 0 := rfl
      · rename_i hlt
        push_neg at hlt
        cases i with
        | zero =>
          show (y :: l2).getD (argminIdx (y :: l2)) 0 ≤ x
          exact le_of_lt hlt
        | succ i2 =>
          have hi2 : i2 < (y :: l2).length := by simpa using hi
          exact ih i2 hi2

/-- Squared distances are nonnegative. -/
theorem sqDist_nonneg (a b : Vec3) : 0 ≤ sqDist a b := by
  unfold sqDist
  positivity

/-- A vanishing squared distance forces equality of the points. -/
theorem sqDist_eq_zero_iff (a b : Vec3) : sqDist a b = 0 ↔ a = b := by
  rcases a with ⟨a1, a2, a3⟩
  rcases b with ⟨b1, b2, b3⟩
  unfold sqDist
  constructor
  · intro h
    have h1 : a1 = b1 := by nlinarith [sq_nonneg (a1 - b1), sq_nonneg (a2 - b2), sq_nonneg (a3 - b3)]
    have h2 : a2 = b2 := by nlinarith [sq_nonneg (a1 - b1), sq_nonneg (a2 - b2), sq_nonneg (a3 - b3)]
    have h3 : a3 = b3 := by nlinarith [sq_nonneg (a1 - b1), sq_nonneg (a2 - b2), sq_nonneg (a3 - b3)]
    simp [h1, h2, h3]
  · intro h
    injection h with h1 hrest
    injection hrest with h2 h3
    simp only at h1 h2 h3 ⊢
    simp [h1, h2, h3]

/-- A list of nonnegative rationals with one positive member has positive
sum. -/
theorem list_sum_pos_of_mem (l : List ℚ) (h0 : ∀ x ∈ l, 0 ≤ x) (x : ℚ)
    (hx : x ∈ l) (hp : 0 < x) : 0 < l.sum :=
  lt_of_lt_of_le hp (List.single_le_sum h0 x hx)

/-- A successful association-list lookup comes from a member pair. -/
theorem lookup_mem {β : Type} : ∀ (l : List (Nat × β)) (k : Nat) (v : β),
    l.lookup k = some v → (k, v) ∈ l := by
  intro l
  induction l with
  | nil => intro k v h; simp [List.lookup] at h
  | cons p t ih =>
    intro k v h
    obtain ⟨k2, v2⟩ := p
    by_cases hk : k = k2
    · subst hk
      simp [List.lookup] at h
      simp [h]
    · rw [List.lookup_cons] at h
      have hbeq : (k == k2) = false := by simpa using hk
      rw [hbeq] at h
      exact List.mem_cons_of_mem _ (ih k v h)

/-- Summing an indicator over an index range picks out the hit value. -/
theorem sum_range_indicator (n t : Nat) (c : ℚ) (h : t < n) :
    ((List.range n).map (fun s => if t = s then c else 0)).sum = c := by
  induction n with
  | zero => omega
  | succ m ih =>
    rw [List.range_succ, List.map_append, List.sum_append]
    by_cases hm : t = m
    · subst hm
      have hz : ((List.range t).map (fun s => if t = s then c else 0)).sum = 0 := by
        apply List.sum_eq_zero
        intro x hxm
        obtain ⟨s, hs, rfl⟩ := List.mem_map.mp hxm
        have : s < t := List.mem_range.mp hs
        have : ¬ (t = s) := by omega
        simp [this]
      simp [hz]
    · have ht : t < m := by omega
      simp [ih ht, hm]

/-- The fold inside nanmeanRow accumulates the sum and the count of the
non-missing entries. -/
theorem nanmean_fold_eq : ∀ (row : List (Option ℚ)) (s : ℚ) (c : Nat),
    row.foldl (fun acc x => match x with
      | some v => (acc.1 + v, acc.2 + 1)
      | none => acc) (s, c)
      = (s + (row.filterMap id).sum, c + (row.filterMap id).length) := by
  intro row
  induction row with
  | nil => intro s c; simp
  | cons x t ih =>
    intro s c
    cases x with
    | none => simpa using ih s c
    | some v =>
      rw [List.foldl_cons]
      show t.foldl _ (s + v, c + 1) = _
      rw [ih (s + v) (c + 1)]
      rw [List.filterMap_cons]
      simp only [id]
      rw [Prod.mk.injEq]
      constructor
      · simp [List.sum_cons]
        ring
      · simp [List.length_cons]
        omega

/-- Closed form of nanmeanRow: missing when no entry is present, otherwise
the mean of the present entries. -/
theorem nanmeanRow_eq (row : List (Option ℚ)) :
    nanmeanRow row = if (row.filterMap id).length = 0 then none
      else some ((row.filterMap id).sum / ((row.filterMap id).length : ℚ)) := by
  unfold nanmeanRow
  rw [nanmean_fold_eq]
  simp

/-- The interpolator returns one row per zipped volume/affine pair. -/
theorem interpolate_original_space_length (P : Prims) (nii_data : List Grid3)
    (nii_affines : List Mat4) (coords : List HVec) (shape : List Nat)
    (lta ref_to_t1 : Mat4) (hmc : List Mat4) (warp_data : Option (List Warp3))
    (warp_affines : List Mat4) (order : Nat) :
    (interpolate_original_space P nii_data nii_affines coords shape lta ref_to_t1
      hmc warp_data warp_affines order).length = min nii_data.length nii_affines.length := by
  simp [interpolate_original_space]

/-- The forward nearest-neighbor index lands inside a nonempty source. -/
theorem forward_index_lt (src tgt : List Vec3) (hsrc : src ≠ []) (t : Nat) :
    forward_index src tgt t < src.length := by
  unfold forward_index nearestIdx
  have h := argminIdx_lt_length (src.map fun p => sqDist p (tgt.getD t ((0 : ℚ), (0 : ℚ), (0 : ℚ))))
    (by simpa using hsrc)
  simpa using h

/-- The reverse nearest-neighbor index lands inside a nonempty target. -/
theorem reverse_index_lt (src tgt : List Vec3) (htgt : tgt ≠ []) (s : Nat) :
    reverse_index src tgt s < tgt.length := by
  unfold reverse_index nearestIdx
  have h := argminIdx_lt_length (tgt.map fun p => sqDist p (src.getD s ((0 : ℚ), (0 : ℚ), (0 : ℚ))))
    (by simpa using htgt)
  simpa using h

/-- Raw accumulation entries are nonnegative. -/
theorem T_raw_nonneg (src tgt : List Vec3) (rev : Bool) (s t : Nat) :
    0 ≤ T_raw src tgt rev s t := by
  unfold T_raw
  split <;> split <;> norm_num

/-- A forward hit contributes at least one unit. -/
theorem T_raw_hit_ge_one (src tgt : List Vec3) (rev : Bool) (s t : Nat)
    (h : forward_index src tgt t = s) : 1 ≤ T_raw src tgt rev s t := by
  unfold T_raw
  rw [if_pos h]
  have h2 : (0 : ℚ) ≤ if rev = true ∧ s ∈ remainingList src tgt ∧ reverse_index src tgt s = t
      then 1 else 0 := by
    split <;> norm_num
  linarith

/-- A reverse hit contributes at least one unit. -/
theorem T_raw_reverse_ge_one (src tgt : List Vec3) (s t : Nat)
    (hm : s ∈ remainingList src tgt) (h : reverse_index src tgt s = t) :
    1 ≤ T_raw src tgt true s t := by
  unfold T_raw
  have hcond : (true = true ∧ s ∈ remainingList src tgt ∧ reverse_index src tgt s = t) :=
    ⟨rfl, hm, h⟩
  rw [if_pos hcond]
  have h2 : (0 : ℚ) ≤ if forward_index src tgt t = s then 1 else 0 := by
    split <;> norm_num
  linarith

/-- Column masses are nonnegative. -/
theorem t_count_nonneg (src tgt : List Vec3) (rev : Bool) (t : Nat) :
    0 ≤ t_count src tgt rev t := by
  apply List.sum_nonneg
  intro x hx
  obtain ⟨s, _, rfl⟩ := List.mem_map.mp hx
  exact T_raw_nonneg src tgt rev s t

/-- Every column receives at least its forward unit. -/
theorem t_count_ge_one (src tgt : List Vec3) (rev : Bool) (t : Nat)
    (hsrc : src ≠ []) : 1 ≤ t_count src tgt rev t := by
  unfold t_count
  have hmem : T_raw src tgt rev (forward_index src tgt t) t ∈
      (List.range src.length).map (fun s => T_raw src tgt rev s t) :=
    List.mem_map.mpr ⟨forward_index src tgt t,
      List.mem_range.mpr (forward_index_lt src tgt hsrc t), rfl⟩
  have h0 : ∀ x ∈ (List.range src.length).map (fun s => T_raw src tgt rev s t), 0 ≤ x := by
    intro x hx
    obtain ⟨s, _, rfl⟩ := List.mem_map.mp hx
    exact T_raw_nonneg src tgt rev s t
  calc (1 : ℚ) ≤ T_raw src tgt rev (forward_index src tgt t) t :=
        T_raw_hit_ge_one src tgt rev _ t rfl
    _ ≤ _ := List.single_le_sum h0 _ hmem

/-- C5: for nonempty source and target sphere vertex sets, every column of
the operator returned by nnfr_transformation sums to 1 (with or without the
reverse pass), and with the reverse pass enabled every source vertex has a
nonzero row sum, so every source vertex contributes to some target
column. -/
theorem nnfr_column_sums_one_row_support (src tgt : List Vec3) (rev : Bool)
    (hsrc : src ≠ []) :
    (∀ t, t < tgt.length →
      ((List.range src.length).map (fun s => nnfr_transformation src tgt rev s t)).sum = 1) ∧
    (rev = true → tgt ≠ [] → ∀ s, s < src.length →
      ((List.range tgt.length).map (fun t => nnfr_transformation src tgt rev s t)).sum ≠ 0) := by
  constructor
  · intro t _
    show ((List.range src.length).map
      (fun s => T_raw src tgt rev s t * (t_count src tgt rev t)⁻¹)).sum = 1
    rw [List.sum_map_mul_right]
    have h1 : 1 ≤ t_count src tgt rev t := t_count_ge_one src tgt rev t hsrc
    have : ((List.range src.length).map (fun s => T_raw src tgt rev s t)).sum
        = t_count src tgt rev t := rfl
    rw [this]
    exact mul_inv_cancel₀ (by linarith)
  · intro hrev htgt s hs
    subst hrev
    have hnn : ∀ x ∈ (List.range tgt.length).map
        (fun t => nnfr_transformation src tgt true s t), 0 ≤ x := by
      intro x hx
      obtain ⟨t, _, rfl⟩ := List.mem_map.mp hx
      exact mul_nonneg (T_raw_nonneg src tgt true s t)
        (inv_nonneg.mpr (t_count_nonneg src tgt true t))
    have hpos : ∃ t0, t0 < tgt.length ∧ 0 < nnfr_transformation src tgt true s t0 := by
      have key : ∀ t0, t0 < tgt.length → 1 ≤ T_raw src tgt true s t0 →
          0 < nnfr_transformation src tgt true s t0 := by
        intro t0 _ h1
        have hc := t_count_ge_one src tgt true t0 hsrc
        have hinv : (0 : ℚ) < (t_count src tgt true t0)⁻¹ := inv_pos.mpr (by linarith)
        have h1c : (0 : ℚ) < T_raw src tgt true s t0 := lt_of_lt_of_le one_pos h1
        exact mul_pos h1c hinv
      by_cases hex : ∃ t0, t0 < tgt.length ∧ forward_index src tgt t0 = s
      · obtain ⟨t0, ht0, hft⟩ := hex
        exact ⟨t0, ht0, key t0 ht0 (T_raw_hit_ge_one src tgt true s t0 hft)⟩
      · push_neg at hex
        have hmem : s ∈ remainingList src tgt := by
          unfold remainingList
          rw [List.mem_filter]
          refine ⟨List.mem_range.mpr hs, ?_⟩
          rw [List.all_eq_true]
          intro t0 ht0
          exact decide_eq_true (hex t0 (List.mem_range.mp ht0))
        have ht0 : reverse_index src tgt s < tgt.length := reverse_index_lt src tgt htgt s
        exact ⟨reverse_index src tgt s, ht0,
          key _ ht0 (T_raw_reverse_ge_one src tgt s _ hmem rfl)⟩
    obtain ⟨t0, ht0, hp⟩ := hpos
    have hmem2 : nnfr_transformation src tgt true s t0 ∈ (List.range tgt.length).map
        (fun t => nnfr_transformation src tgt true s t) :=
      List.mem_map.mpr ⟨t0, List.mem_range.mpr ht0, rfl⟩
    exact ne_of_gt (list_sum_pos_of_mem _ hnn _ hmem2 hp)

/-- Evaluation of getD through a map at an in-range index. -/
theorem getD_map_q (f : Vec3 → ℚ) : ∀ (l : List Vec3) (i : Nat), i < l.length →
    (l.map f).getD i 0 = f (l.getD i ((0 : ℚ), (0 : ℚ), (0 : ℚ))) := by
  intro l
  induction l with
  | nil => simp
  | cons x t ih =>
    intro i hi
    cases i with
    | zero => simp
    | succ i2 =>
      have hi2 : i2 < t.length := by simpa using hi
      simpa using ih i2 hi2

/-- The squared distance of a point to itself vanishes. -/
theorem sqDist_self (a : Vec3) : sqDist a a = 0 := by
  simp [sqDist]

/-- On a list of pairwise-distinct points, the nearest point to the t-th
point is the t-th point itself. -/
theorem forward_index_self (S : List Vec3)
    (hdist : ∀ i j, i < S.length → j < S.length → i ≠ j →
      S.getD i ((0 : ℚ), (0 : ℚ), (0 : ℚ)) ≠ S.getD j ((0 : ℚ), (0 : ℚ), (0 : ℚ)))
    (t : Nat) (ht : t < S.length) : forward_index S S t = t := by
  unfold forward_index nearestIdx
  set q := S.getD t ((0 : ℚ), (0 : ℚ), (0 : ℚ)) with hq
  set d := S.map (fun p => sqDist p q) with hd
  have hlen : d.length = S.length := by simp [hd]
  have hne : d ≠ [] := by
    intro h0
    rw [h0] at hlen
    simp at hlen
    omega
  have hm : argminIdx d < S.length := by
    have := argminIdx_lt_length d hne
    omega
  have h0 : d.getD t 0 = 0 := by
    rw [hd, getD_map_q _ S t ht, ← hq, sqDist_self]
  have hle := argminIdx_getD_le d t (by omega)
  by_contra hne2
  have hgm : d.getD (argminIdx d) 0 = sqDist (S.getD (argminIdx d) ((0 : ℚ), (0 : ℚ), (0 : ℚ))) q := by
    rw [hd, getD_map_q _ S _ hm]
  have hd2 : S.getD (argminIdx d) ((0 : ℚ), (0 : ℚ), (0 : ℚ)) ≠ q :=
    hdist (argminIdx d) t hm ht hne2
  have hpos : 0 < d.getD (argminIdx d) 0 := by
    rw [hgm]
    rcases lt_or_eq_of_le (sqDist_nonneg (S.getD (argminIdx d) ((0 : ℚ), (0 : ℚ), (0 : ℚ))) q) with h | h
    · exact h
    · exact absurd ((sqDist_eq_zero_iff _ _).mp h.symm) hd2
  rw [h0] at hle
  linarith

/-- On a list of pairwise-distinct points, every source vertex gets a
forward hit, so the reverse pass has nothing to add. -/
theorem remainingList_self_nil (S : List Vec3)
    (hdist : ∀ i j, i < S.length → j < S.length → i ≠ j →
      S.getD i ((0 : ℚ), (0 : ℚ), (0 : ℚ)) ≠ S.getD j ((0 : ℚ), (0 : ℚ), (0 : ℚ))) :
    remainingList S S = [] := by
  unfold remainingList
  rw [List.filter_eq_nil]
  intro s hs
  have hsl : s < S.length := List.mem_range.mp hs
  intro hall
  rw [List.all_eq_true] at hall
  have := hall s hs
  rw [decide_eq_true_iff] at this
  exact this (forward_index_self S hdist s hsl)

/-- C6: nnfr_transformation of a pairwise-distinct vertex set against
itself with the reverse pass enabled is the identity operator: weight 1 on
the diagonal and 0 elsewhere. -/
theorem nnfr_self_identity (S : List Vec3)
    (hdist : ∀ i j, i < S.length → j < S.length → i ≠ j →
      S.getD i ((0 : ℚ), (0 : ℚ), (0 : ℚ)) ≠ S.getD j ((0 : ℚ), (0 : ℚ), (0 : ℚ))) :
    ∀ s t, s < S.length → t < S.length →
      nnfr_transformation S S true s t = if s = t then 1 else 0 := by
  intro s t hs ht
  have hrem := remainingList_self_nil S hdist
  have hT : ∀ s2, T_raw S S true s2 t = if t = s2 then 1 else 0 := by
    intro s2
    unfold T_raw
    rw [forward_index_self S hdist t ht, hrem]
    simp
  have hc : t_count S S true t = 1 := by
    unfold t_count
    have : (fun s2 => T_raw S S true s2 t) = (fun s2 => if t = s2 then (1 : ℚ) else 0) := by
      funext s2
      exact hT s2
    rw [this]
    exact sum_range_indicator S.length t 1 ht
  unfold nnfr_transformation
  rw [hT s, hc]
  rcases eq_or_ne s t with h | h
  · simp [h]
  · simp [h, Ne.symm h]

/-- Witness for C5 at a concrete two-vertex source and one-vertex target. -/
theorem nnfr_column_sums_one_row_support_witness :
    ([((0 : ℚ), (0 : ℚ), (0 : ℚ)), ((2 : ℚ), (0 : ℚ), (0 : ℚ))] : List Vec3) ≠ [] ∧
    ((List.range ([((0 : ℚ), (0 : ℚ), (0 : ℚ)), ((2 : ℚ), (0 : ℚ), (0 : ℚ))] : List Vec3).length).map
      (fun s => nnfr_transformation
        [((0 : ℚ), (0 : ℚ), (0 : ℚ)), ((2 : ℚ), (0 : ℚ), (0 : ℚ))]
        [((1 : ℚ), (0 : ℚ), (0 : ℚ))] true s 0)).sum = 1 ∧
    ((List.range ([((1 : ℚ), (0 : ℚ), (0 : ℚ))] : List Vec3).length).map
      (fun t => nnfr_transformation
        [((0 : ℚ), (0 : ℚ), (0 : ℚ)), ((2 : ℚ), (0 : ℚ), (0 : ℚ))]
        [((1 : ℚ), (0 : ℚ), (0 : ℚ))] true 0 t)).sum ≠ 0 :=
  ⟨by decide,
    (nnfr_column_sums_one_row_support
      [((0 : ℚ), (0 : ℚ), (0 : ℚ)), ((2 : ℚ), (0 : ℚ), (0 : ℚ))]
      [((1 : ℚ), (0 : ℚ), (0 : ℚ))] true (by decide)).1 0 (by decide),
    (nnfr_column_sums_one_row_support
      [((0 : ℚ), (0 : ℚ), (0 : ℚ)), ((2 : ℚ), (0 : ℚ), (0 : ℚ))]
      [((1 : ℚ), (0 : ℚ), (0 : ℚ))] true (by decide)).2 rfl (by decide) 0 (by decide)⟩

/-- Witness for C6 at a concrete three-vertex sphere. -/
theorem nnfr_self_identity_witness :
    (∀ i j, i < ([((0 : ℚ), (0 : ℚ), (0 : ℚ)), ((1 : ℚ), (0 : ℚ), (0 : ℚ)),
        ((0 : ℚ), (1 : ℚ), (0 : ℚ))] : List Vec3).length →
      j < ([((0 : ℚ), (0 : ℚ), (0 : ℚ)), ((1 : ℚ), (0 : ℚ), (0 : ℚ)),
        ((0 : ℚ), (1 : ℚ), (0 : ℚ))] : List Vec3).length → i ≠ j →
      ([((0 : ℚ), (0 : ℚ), (0 : ℚ)), ((1 : ℚ), (0 : ℚ), (0 : ℚ)),
        ((0 : ℚ), (1 : ℚ), (0 : ℚ))] : List Vec3).getD i ((0 : ℚ), (0 : ℚ), (0 : ℚ)) ≠
      ([((0 : ℚ), (0 : ℚ), (0 : ℚ)), ((1 : ℚ), (0 : ℚ), (0 : ℚ)),
        ((0 : ℚ), (1 : ℚ), (0 : ℚ))] : List Vec3).getD j ((0 : ℚ), (0 : ℚ), (0 : ℚ))) ∧
    nnfr_transformation
      [((0 : ℚ), (0 : ℚ), (0 : ℚ)), ((1 : ℚ), (0 : ℚ), (0 : ℚ)), ((0 : ℚ), (1 : ℚ), (0 : ℚ))]
      [((0 : ℚ), (0 : ℚ), (0 : ℚ)), ((1 : ℚ), (0 : ℚ), (0 : ℚ)), ((0 : ℚ), (1 : ℚ), (0 : ℚ))]
      true 1 1 = 1 ∧
    nnfr_transformation
      [((0 : ℚ), (0 : ℚ), (0 : ℚ)), ((1 : ℚ), (0 : ℚ), (0 : ℚ)), ((0 : ℚ), (1 : ℚ), (0 : ℚ))]
      [((0 : ℚ), (0 : ℚ), (0 : ℚ)), ((1 : ℚ), (0 : ℚ), (0 : ℚ)), ((0 : ℚ), (1 : ℚ), (0 : ℚ))]
      true 0 2 = 0 := by
  have hd : ∀ i j, i < ([((0 : ℚ), (0 : ℚ), (0 : ℚ)), ((1 : ℚ), (0 : ℚ), (0 : ℚ)),
      ((0 : ℚ), (1 : ℚ), (0 : ℚ))] : List Vec3).length →
      j < ([((0 : ℚ), (0 : ℚ), (0 : ℚ)), ((1 : ℚ), (0 : ℚ), (0 : ℚ)),
        ((0 : ℚ), (1 : ℚ), (0 : ℚ))] : List Vec3).length → i ≠ j →
      ([((0 : ℚ), (0 : ℚ), (0 : ℚ)), ((1 : ℚ), (0 : ℚ), (0 : ℚ)),
        ((0 : ℚ), (1 : ℚ), (0 : ℚ))] : List Vec3).getD i ((0 : ℚ), (0 : ℚ), (0 : ℚ)) ≠
      ([((0 : ℚ), (0 : ℚ), (0 : ℚ)), ((1 : ℚ), (0 : ℚ), (0 : ℚ)),
        ((0 : ℚ), (1 : ℚ), (0 : ℚ))] : List Vec3).getD j ((0 : ℚ), (0 : ℚ), (0 : ℚ)) := by
    intro i j hi hj hij
    have hi3 : i < 3 := by simpa using hi
    have hj3 : j < 3 := by simpa using hj
    interval_cases i <;> interval_cases j <;> simp_all <;> decide
  refine ⟨hd, ?_, ?_⟩
  · have := nnfr_self_identity _ hd 1 1 (by decide) (by decide)
    simpa using this
  · have := nnfr_self_identity _ hd 0 2 (by decide) (by decide)
    simpa using this

/-- A nonzero voxel makes its slice along axis 0 non-empty. -/
theorem sliceZero0_false (g : Grid3) (i j k : Nat) (hj : j < g.shape.2.1)
    (hk : k < g.shape.2.2) (hv : g.val i j k ≠ 0) : sliceZero g 0 i = false := by
  unfold sliceZero
  rw [if_pos rfl]
  rw [List.all_eq_false]
  refine ⟨j, List.mem_range.mpr hj, ?_⟩
  rw [Bool.not_eq_true, List.all_eq_false]
  refine ⟨k, List.mem_range.mpr hk, ?_⟩
  simpa using hv

/-- A nonzero voxel makes its slice along axis 1 non-empty. -/
theorem sliceZero1_false (g : Grid3) (i j k : Nat) (hi : i < g.shape.1)
    (hk : k < g.shape.2.2) (hv : g.val i j k ≠ 0) : sliceZero g 1 j = false := by
  unfold sliceZero
  rw [if_neg (by norm_num), if_pos rfl]
  rw [List.all_eq_false]
  refine ⟨i, List.mem_range.mpr hi, ?_⟩
  rw [Bool.not_eq_true, List.all_eq_false]
  refine ⟨k, List.mem_range.mpr hk, ?_⟩
  simpa using hv

/-- A nonzero voxel makes its slice along axis 2 non-empty. -/
theorem sliceZero2_false (g : Grid3) (i j k : Nat) (hi : i < g.shape.1)
    (hj : j < g.shape.2.1) (hv : g.val i j k ≠ 0) : sliceZero g 2 k = false := by
  unfold sliceZero
  rw [if_neg (by norm_num), if_neg (by norm_num)]
  rw [List.all_eq_false]
  refine ⟨i, List.mem_range.mpr hi, ?_⟩
  rw [Bool.not_eq_true, List.all_eq_false]
  refine ⟨j, List.mem_range.mpr hj, ?_⟩
  simpa using hv

/-- When the top slice of an axis is all-zero the trailing run is
nonempty. -/
theorem trailCount_pos (g : Grid3) (d : Nat) (hn : 0 < dimSize g d)
    (hlast : sliceZero g d (dimSize g d - 1) = true) : 0 < trailCount g d := by
  unfold trailCount
  obtain ⟨n2, hn2⟩ : ∃ n2, dimSize g d = n2 + 1 := ⟨dimSize g d - 1, by omega⟩
  rw [hn2]
  rw [List.range_succ, List.reverse_append]
  simp only [List.reverse_cons, List.reverse_nil, List.nil_append, List.singleton_append]
  rw [List.takeWhile_cons]
  have : sliceZero g d n2 = true := by
    rw [hn2] at hlast
    simpa using hlast
  rw [this]
  simp

/-- An axis holding a non-empty slice has a trailing all-zero run shorter
than the axis. -/
theorem trailCount_lt (g : Grid3) (d : Nat)
    (hfalse : ∃ i, i < dimSize g d ∧ sliceZero g d i = false) :
    trailCount g d < dimSize g d := by
  obtain ⟨i, hi, hf⟩ := hfalse
  unfold trailCount
  rw [takeWhile_length_findIdx]
  have hmem : i ∈ (List.range (dimSize g d)).reverse := by
    rw [List.mem_reverse]
    exact List.mem_range.mpr hi
  have := @List.findIdx_lt_length_of_exists _ (fun a => ! sliceZero g d a)
    ((List.range (dimSize g d)).reverse) ⟨i, hmem, by simp [hf]⟩
  simpa using this

/-- The per-axis index range produced by find_truncation_boundaries is the
tightest bounding box expanded by margin + 1 voxels per side and clamped to
the volume bounds, provided the axis holds a nonzero slice and its top
slice is all-zero. -/
theorem truncation_bound_eq_spec (g : Grid3) (d m : Nat)
    (hfalse : ∃ i, i < dimSize g d ∧ sliceZero g d i = false)
    (hlast : sliceZero g d (dimSize g d - 1) = true) :
    truncation_bound g m d = spec_box g d (m + 1) := by
  have hn : 0 < dimSize g d := by
    obtain ⟨i, hi, _⟩ := hfalse
    omega
  have htpos := trailCount_pos g d hn hlast
  have htlt := trailCount_lt g d hfalse
  unfold truncation_bound spec_box
  have hlow : lowerRaw g d - m = spec_first_nonzero g d - (m + 1) := by
    unfold lowerRaw spec_first_nonzero
    rw [takeWhile_length_findIdx]
    omega
  have hrw : trailCount g d =
      (List.range (dimSize g d)).reverse.findIdx (fun i => ! sliceZero g d i) := by
    unfold trailCount
    rw [takeWhile_length_findIdx]
  have hup : min (upperRaw g d + m + 1) (dimSize g d) =
      min (spec_last_nonzero g d + (m + 1) + 1) (dimSize g d) := by
    unfold upperRaw spec_last_nonzero
    rw [if_neg (by omega), ← hrw]
    omega
  rw [hlow, hup]

/-- Counterexample for C2: on the 9x1x1 mask holding a single nonzero voxel
at index 4 and with margin 0, canonical_volume_coords (with the identity
canonical affine) returns the box shape [7, 1, 1], not the shape [1, 1, 1]
of the tightest bounding box expanded by 0 voxels per side that the claim
describes: the margin argument is ignored (a fixed margin of 2 is used) and
the scan plus clamping over-extend the box by one extra voxel per side. -/
theorem canonical_volume_coords_claim_counterexample :
    (canonical_volume_coords ⟨(9, 1, 1), fun i _ _ => if i = 4 then 1 else 0⟩ mat4Id 0).2
      = [7, 1, 1] ∧
    (spec_volume_coords ⟨(9, 1, 1), fun i _ _ => if i = 4 then 1 else 0⟩ mat4Id 0).2
      = [1, 1, 1] ∧
    (canonical_volume_coords ⟨(9, 1, 1), fun i _ _ => if i = 4 then 1 else 0⟩ mat4Id 0).2 ≠
      (spec_volume_coords ⟨(9, 1, 1), fun i _ _ => if i = 4 then 1 else 0⟩ mat4Id 0).2 :=
  ⟨by decide, by decide, by decide⟩

/-- C2 amended: for every mask holding a nonzero voxel whose nonzero region
stays clear of the top volume boundary in every axis, and for every margin
argument m, the generator enumerates the integer voxel coordinates of the
tightest bounding box expanded by 3 voxels per side (the margin argument is
ignored in favor of the fixed default 2, and the boundary scan together
with the exclusive-bound clamp adds one more voxel per side), clamped to
the volume bounds, converts them through the canonical affine, and returns
the box dimensions as the output shape. -/
theorem canonical_volume_coords_amended (g : Grid3) (affine : Mat4) (m : Nat)
    (hvox : ∃ i j k, i < g.shape.1 ∧ j < g.shape.2.1 ∧ k < g.shape.2.2 ∧ g.val i j k ≠ 0)
    (hlast : ∀ d, d < 3 → sliceZero g d (dimSize g d - 1) = true) :
    canonical_volume_coords g affine m = spec_volume_coords g affine 3 := by
  obtain ⟨i, j, k, hi, hj, hk, hv⟩ := hvox
  have hd0 : dimSize g 0 = g.shape.1 := by simp [dimSize]
  have hd1 : dimSize g 1 = g.shape.2.1 := by simp [dimSize]
  have hd2 : dimSize g 2 = g.shape.2.2 := by simp [dimSize]
  have hf0 : ∃ a, a < dimSize g 0 ∧ sliceZero g 0 a = false :=
    ⟨i, by omega, sliceZero0_false g i j k hj hk hv⟩
  have hf1 : ∃ a, a < dimSize g 1 ∧ sliceZero g 1 a = false :=
    ⟨j, by omega, sliceZero1_false g i j k hi hk hv⟩
  have hf2 : ∃ a, a < dimSize g 2 ∧ sliceZero g 2 a = false :=
    ⟨k, by omega, sliceZero2_false g i j k hi hj hv⟩
  have hb0 := truncation_bound_eq_spec g 0 2 hf0 (hlast 0 (by norm_num))
  have hb1 := truncation_bound_eq_spec g 1 2 hf1 (hlast 1 (by norm_num))
  have hb2 := truncation_bound_eq_spec g 2 2 hf2 (hlast 2 (by norm_num))
  norm_num at hb0 hb1 hb2
  simp only [canonical_volume_coords, spec_volume_coords, find_truncation_boundaries,
    hb0, hb1, hb2]

/-- Witness for the amended C2 statement on the concrete interior-voxel
mask. -/
theorem canonical_volume_coords_amended_witness :
    (∃ i j k, i < exMask533.shape.1 ∧ j < exMask533.shape.2.1 ∧
      k < exMask533.shape.2.2 ∧ exMask533.val i j k ≠ 0) ∧
    (∀ d, d < 3 → sliceZero exMask533 d (dimSize exMask533 d - 1) = true) ∧
    canonical_volume_coords exMask533 mat4Id 0 = spec_volume_coords exMask533 mat4Id 3 := by
  refine ⟨⟨2, 1, 1, by decide, by decide, by decide, by decide⟩, by decide, ?_⟩
  exact canonical_volume_coords_amended exMask533 mat4Id 0
    ⟨2, 1, 1, by decide, by decide, by decide, by decide⟩ (by decide)

/-- C7: intensity sampling at a coordinate outside the source volume yields
the missing value (the nan fill of the constant mode), never a clamped or
wrapped sample and never a failure (the model is total); and the trailing
depth-fraction axis of a 2-dimensional output shape is collapsed per
location to the mean of its non-missing values, an all-missing location
staying missing. -/
theorem interp_missing_sentinel_nanmean :
    (∀ (P : Prims) (g : Grid3) (o : Nat) (p : HVec),
      inBoundsB g.shape (first3 p) = false → sample_volume P g o p = none) ∧
    (∀ row : List (Option ℚ), (∀ x ∈ row, x = none) → nanmeanRow row = none) ∧
    (∀ row : List (Option ℚ), (∃ x ∈ row, x ≠ none) →
      nanmeanRow row = some ((row.filterMap id).sum / ((row.filterMap id).length : ℚ))) ∧
    (∀ (P : Prims) (coords2 : List HVec) (n f o : Nat)
      (wd : Option (List Warp3)) (wa hm : List Mat4) (i : Nat) (g : Grid3) (a : Mat4),
      volume_interp P coords2 [n, f] o wd wa hm i g a =
        (reshape_rows f (volume_interp P coords2 [] o wd wa hm i g a)).map nanmeanRow) := by
  refine ⟨?_, ?_, ?_, ?_⟩
  · intro P g o p h
    simp [sample_volume, map_coordinates, h]
  · intro row h
    rw [nanmeanRow_eq]
    have : row.filterMap id = [] := List.filterMap_eq_nil.mpr h
    simp [this]
  · intro row h
    rw [nanmeanRow_eq]
    obtain ⟨x, hx, hne⟩ := h
    obtain ⟨v, rfl⟩ := Option.ne_none_iff_exists'.mp hne
    have hv : v ∈ row.filterMap id := List.mem_filterMap.mpr ⟨some v, hx, rfl⟩
    have : row.filterMap id ≠ [] := by
      intro h0
      rw [h0] at hv
      simp at hv
    have hlen : (row.filterMap id).length ≠ 0 := by
      simpa [List.length_eq_zero] using this
    simp [hlen]
  · intro P coords2 n f o wd wa hm i g a
    rfl

/-- C9: inside interpolate_original_space the displacement correction for
volume i converts points to the voxel grid of the field through the inverse
of the field affine, samples the three displacement components there with
spline order 1, and subtracts the sampled displacement from the point
coordinates; the correction never consults the kernel at the requested
intensity order (two primitive sets agreeing at order 1 produce the same
correction), and the warp branch of the per-volume computation factors as
this correction followed by the warp-free pipeline. -/
theorem warp_correction_order1_subtract :
    (∀ (P : Prims) (w : Warp3) (wa : Mat4) (p : HVec),
      applyWarp P w wa p = hvec_sub p (displacement_lookup P w wa p)) ∧
    (∀ (P Q : Prims) (w : Warp3) (wa : Mat4) (p : HVec),
      (∀ g c, P.kernel g c 1 = Q.kernel g c 1) → P.inv = Q.inv →
      applyWarp P w wa p = applyWarp Q w wa p) ∧
    (∀ (P : Prims) (coords2 : List HVec) (sh : List Nat) (o : Nat)
      (wd : List Warp3) (wa hm : List Mat4) (i : Nat) (g : Grid3) (a : Mat4),
      volume_interp P coords2 sh o (some wd) wa hm i g a =
        volume_interp P (coords2.map (applyWarp P (wd.getD i default) (wa.getD i mat4Zero)))
          sh o none wa hm i g a) := by
  refine ⟨?_, ?_, ?_⟩
  · intro P w wa p
    simp [applyWarp, hvec_sub, displacement_lookup]
  · intro P Q w wa p hk hinv
    unfold applyWarp
    rw [hinv]
    unfold map_coordinates
    simp only [hk]
  · intro P coords2 sh o wd wa hm i g a
    rfl

/-- Witness for C7: a concrete out-of-bounds sample is missing, an
all-missing row stays missing, and a partially missing row averages its
present values. -/
theorem interp_missing_sentinel_nanmean_witness :
    (inBoundsB (grid3Empty.shape) (first3 ((5 : ℚ), (0 : ℚ), (0 : ℚ), (1 : ℚ))) = false) ∧
    sample_volume exPrims grid3Empty 3 ((5 : ℚ), (0 : ℚ), (0 : ℚ), (1 : ℚ)) = none ∧
    (∀ x ∈ ([none, none] : List (Option ℚ)), x = none) ∧
    nanmeanRow ([none, none] : List (Option ℚ)) = none ∧
    (∃ x ∈ ([none, some 2, some 4] : List (Option ℚ)), x ≠ none) ∧
    nanmeanRow ([none, some 2, some 4] : List (Option ℚ)) =
      some ((([none, some 2, some 4] : List (Option ℚ)).filterMap id).sum /
        ((([none, some 2, some 4] : List (Option ℚ)).filterMap id).length : ℚ)) := by
  have hb : inBoundsB (grid3Empty.shape) (first3 ((5 : ℚ), (0 : ℚ), (0 : ℚ), (1 : ℚ))) = false := by
    norm_num [inBoundsB, grid3Empty, first3]
  refine ⟨hb, ?_, by decide, ?_, by decide, ?_⟩
  · exact interp_missing_sentinel_nanmean.1 exPrims grid3Empty 3
      ((5 : ℚ), (0 : ℚ), (0 : ℚ), (1 : ℚ)) hb
  · exact interp_missing_sentinel_nanmean.2.1 [none, none] (by decide)
  · exact interp_missing_sentinel_nanmean.2.2.1 [none, some 2, some 4] (by decide)

/-- Witness for C9: the two concrete primitive sets agree at order 1 and
yield the same displacement correction for a concrete point. -/
theorem warp_correction_order1_subtract_witness :
    (∀ g c, exPrimsOrder.kernel g c 1 = exPrimsOne.kernel g c 1) ∧
    exPrimsOrder.inv = exPrimsOne.inv ∧
    applyWarp exPrimsOrder (grid3Empty, grid3Empty, grid3Empty) mat4Id
        ((0 : ℚ), (0 : ℚ), (0 : ℚ), (1 : ℚ)) =
      applyWarp exPrimsOne (grid3Empty, grid3Empty, grid3Empty) mat4Id
        ((0 : ℚ), (0 : ℚ), (0 : ℚ), (1 : ℚ)) := by
  have hk : ∀ g c, exPrimsOrder.kernel g c 1 = exPrimsOne.kernel g c 1 := by
    intro g c
    norm_num [exPrimsOrder, exPrimsOne]
  refine ⟨hk, rfl, ?_⟩
  exact warp_correction_order1_subtract.2.1 exPrimsOrder exPrimsOne
    (grid3Empty, grid3Empty, grid3Empty) mat4Id ((0 : ℚ), (0 : ℚ), (0 : ℚ), (1 : ℚ)) hk rfl

/-- C8: on per-vertex inputs of matching length and a common fraction list,
the normal-offset and pial-interpolated coordinate generators return equal
output shapes, and the shape assertions of Hemisphere.compute_coordinates
on a fully loaded native space therefore succeed. -/
theorem surface_coords_shapes_agree (white : List Vec3) (c_ras : Vec3)
    (normals : List Vec3) (thicknesses : List ℚ) (pial : List Vec3) (fracs : List ℚ)
    (hn : normals.length = white.length) (ht : thicknesses.length = white.length)
    (hp : pial.length = white.length) :
    (surface_coords_normal white c_ras normals thicknesses fracs).2 =
      (surface_coords_pial white c_ras pial fracs).2 ∧
    (∀ (P : Prims) (c : Vec3) (sp : SpaceData) (fc : List Face) (th : List ℚ),
      sp.name = "native" → sp.faces = some fc → sp.thickness = some th →
      (Hemisphere.compute_coordinates P c sp).isOk = true) := by
  constructor
  · rfl
  · intro P c sp fc th hname hfaces hth
    unfold Hemisphere.compute_coordinates
    rw [hname, hfaces, hth]
    simp only [surface_coords_normal, surface_coords_pial]
    rfl

/-- Witness for C8 on concrete one-vertex data and the loaded native
space. -/
theorem surface_coords_shapes_agree_witness :
    ([((0 : ℚ), (0 : ℚ), (1 : ℚ))] : List Vec3).length =
      ([((0 : ℚ), (0 : ℚ), (0 : ℚ))] : List Vec3).length ∧
    ([(1 : ℚ)] : List ℚ).length = ([((0 : ℚ), (0 : ℚ), (0 : ℚ))] : List Vec3).length ∧
    (surface_coords_normal [((0 : ℚ), (0 : ℚ), (0 : ℚ))] ((0 : ℚ), (0 : ℚ), (0 : ℚ))
        [((0 : ℚ), (0 : ℚ), (1 : ℚ))] [(1 : ℚ)] default_fracs).2 =
      (surface_coords_pial [((0 : ℚ), (0 : ℚ), (0 : ℚ))] ((0 : ℚ), (0 : ℚ), (0 : ℚ))
        [((0 : ℚ), (0 : ℚ), (1 : ℚ))] default_fracs).2 ∧
    exNativeSpace.name = "native" ∧
    (Hemisphere.compute_coordinates exPrims ((0 : ℚ), (0 : ℚ), (0 : ℚ))
      exNativeSpace).isOk = true := by
  have h := surface_coords_shapes_agree [((0 : ℚ), (0 : ℚ), (0 : ℚ))]
    ((0 : ℚ), (0 : ℚ), (0 : ℚ)) [((0 : ℚ), (0 : ℚ), (1 : ℚ))] [(1 : ℚ)]
    [((0 : ℚ), (0 : ℚ), (1 : ℚ))] default_fracs (by decide) (by decide) (by decide)
  exact ⟨by decide, by decide, h.1, by decide,
    h.2 exPrims ((0 : ℚ), (0 : ℚ), (0 : ℚ)) exNativeSpace [(0, 0, 0)] [1] rfl rfl rfl⟩

/-- Counterexample for C3: a concrete Hemisphere.resample call returns with
no pial-interpolated sampling coordinates and no shape stored in the new
space; the sampling coordinates appear only after a separate
compute_coordinates call. -/
theorem resample_no_sampling_coords_counterexample :
    (Hemisphere.resample exSurfacePrim exNativeSpace "std"
      [((0 : ℚ), (0 : ℚ), (1 : ℚ))] (some [(0, 0, 0)])).coords_pial = none ∧
    (Hemisphere.resample exSurfacePrim exNativeSpace "std"
      [((0 : ℚ), (0 : ℚ), (1 : ℚ))] (some [(0, 0, 0)])).shape = none :=
  ⟨rfl, rfl⟩

/-- C3 amended: resample stores exactly the barycentrically transported
white and pial coordinates together with the new faces and the space name;
it computes no sampling coordinates, shape, or transport operator.  The
pial-interpolated sampling coordinates of the new space are produced only
by a subsequent compute_coordinates(space_name) call, which fills the
coords_pial and shape keys from the transported coordinates. -/
theorem resample_stores_white_pial_only (S : SurfacePrim) (native : SpaceData)
    (space_name : String) (new_coords : List Vec3) (new_faces : Option (List Face))
    (P : Prims) (c : Vec3) (r : SpaceData)
    (hr : r = Hemisphere.resample S native space_name new_coords new_faces) :
    r.white = barycentric_blend native.white (native.faces.getD [])
      (S.compute_barycentric_weights (native.sphere_reg.getD [])
        (native.faces.getD []) new_coords) ∧
    r.pial = barycentric_blend native.pial (native.faces.getD [])
      (S.compute_barycentric_weights (native.sphere_reg.getD [])
        (native.faces.getD []) new_coords) ∧
    r.name = space_name ∧ r.faces = new_faces ∧
    r.coords_pial = none ∧ r.shape = none ∧ r.to_fsavg = none ∧
    (space_name ≠ "native" →
      Hemisphere.compute_coordinates P c r = Except.ok { r with
        coords_pial := some (surface_coords_pial r.white c r.pial default_fracs).1,
        shape := some (surface_coords_pial r.white c r.pial default_fracs).2 }) := by
  subst hr
  refine ⟨rfl, rfl, rfl, rfl, rfl, rfl, rfl, ?_⟩
  intro hname
  unfold Hemisphere.compute_coordinates
  have hname2 : (Hemisphere.resample S native space_name new_coords new_faces).name
      = space_name := rfl
  rw [hname2, if_neg hname]
  rfl

/-- Witness for the amended C3 statement at a concrete resample call. -/
theorem resample_stores_white_pial_only_witness :
    ("std" : String) ≠ "native" ∧
    (Hemisphere.resample exSurfacePrim exNativeSpace "std"
      [((0 : ℚ), (0 : ℚ), (1 : ℚ))] (some [(0, 0, 0)])).name = "std" ∧
    Hemisphere.compute_coordinates exPrims ((0 : ℚ), (0 : ℚ), (0 : ℚ))
        (Hemisphere.resample exSurfacePrim exNativeSpace "std"
          [((0 : ℚ), (0 : ℚ), (1 : ℚ))] (some [(0, 0, 0)])) =
      Except.ok { (Hemisphere.resample exSurfacePrim exNativeSpace "std"
          [((0 : ℚ), (0 : ℚ), (1 : ℚ))] (some [(0, 0, 0)])) with
        coords_pial := some (surface_coords_pial
          (Hemisphere.resample exSurfacePrim exNativeSpace "std"
            [((0 : ℚ), (0 : ℚ), (1 : ℚ))] (some [(0, 0, 0)])).white
          ((0 : ℚ), (0 : ℚ), (0 : ℚ))
          (Hemisphere.resample exSurfacePrim exNativeSpace "std"
            [((0 : ℚ), (0 : ℚ), (1 : ℚ))] (some [(0, 0, 0)])).pial default_fracs).1,
        shape := some (surface_coords_pial
          (Hemisphere.resample exSurfacePrim exNativeSpace "std"
            [((0 : ℚ), (0 : ℚ), (1 : ℚ))] (some [(0, 0, 0)])).white
          ((0 : ℚ), (0 : ℚ), (0 : ℚ))
          (Hemisphere.resample exSurfacePrim exNativeSpace "std"
            [((0 : ℚ), (0 : ℚ), (1 : ℚ))] (some [(0, 0, 0)])).pial default_fracs).2 } := by
  have h := resample_stores_white_pial_only exSurfacePrim exNativeSpace "std"
    [((0 : ℚ), (0 : ℚ), (1 : ℚ))] (some [(0, 0, 0)]) exPrims
    ((0 : ℚ), (0 : ℚ), (0 : ℚ)) _ rfl
  exact ⟨by decide, h.2.2.1, h.2.2.2.2.2.2.2 (by decide)⟩

/-- A space with no stored transport operator makes interpolate_surface
with standard_space fail with a key lookup error, whichever coordinates it
holds. -/
theorem interpolate_surface_standard_error (P : Prims) (st : InterpState)
    (space : SpaceData) (projection_type : String) (order : Nat)
    (hfs : space.to_fsavg = none) :
    ∃ e, Interpolator.interpolate_surface P st space projection_type true order
      = Except.error e := by
  unfold Interpolator.interpolate_surface
  cases hc : space_coords_lookup space projection_type with
  | none => exact ⟨"KeyError", rfl⟩
  | some coords =>
    cases hs : space.shape with
    | none => exact ⟨"KeyError", rfl⟩
    | some sh =>
      rw [hfs]
      exact ⟨"KeyError", rfl⟩

/-- compute_coordinates never touches the to_fsavg key. -/
theorem compute_coordinates_to_fsavg (P : Prims) (c : Vec3) (space sp : SpaceData)
    (h : Hemisphere.compute_coordinates P c space = Except.ok sp) :
    sp.to_fsavg = space.to_fsavg := by
  unfold Hemisphere.compute_coordinates at h
  split at h
  · split at h
    · dsimp only at h
      split at h
      · split at h
        · rw [Except.ok.injEq] at h
          rw [← h]
        · exact absurd h (by simp)
      · exact absurd h (by simp)
    · exact absurd h (by simp)
  · split at h
    · dsimp only at h
      split at h
      · rw [Except.ok.injEq] at h
        rw [← h]
      · exact absurd h (by simp)
    · rw [Except.ok.injEq] at h
      rw [← h]

/-- C10: only the native space receives the native-to-standard transport
operator.  A space created by Hemisphere.resample holds no to_fsavg key, so
Interpolator.interpolate_surface with standard_space on it, directly or
after its compute_coordinates call, ends in a key lookup error instead of a
standardized-mesh output, while compute_transformation does store the
operator on the native space. -/
theorem resampled_space_standard_space_key_error (P : Prims) (st : InterpState)
    (S : SurfacePrim) (native : SpaceData) (space_name : String)
    (new_coords : List Vec3) (new_faces : Option (List Face))
    (projection_type : String) (order : Nat) :
    (∃ e, Interpolator.interpolate_surface P st
      (Hemisphere.resample S native space_name new_coords new_faces)
      projection_type true order = Except.error e) ∧
    (∀ (c : Vec3) (sp : SpaceData),
      Hemisphere.compute_coordinates P c
        (Hemisphere.resample S native space_name new_coords new_faces) = Except.ok sp →
      ∃ e, Interpolator.interpolate_surface P st sp projection_type true order
        = Except.error e) ∧
    (∀ (native2 : SpaceData) (fsavg : List Vec3),
      (Hemisphere.compute_transformation native2 fsavg).to_fsavg.isSome = true) := by
  refine ⟨?_, ?_, ?_⟩
  · exact interpolate_surface_standard_error P st _ projection_type order rfl
  · intro c sp heq
    have hfs : sp.to_fsavg = none := by
      rw [compute_coordinates_to_fsavg P c _ sp heq]
      rfl
    exact interpolate_surface_standard_error P st sp projection_type order hfs
  · intro native2 fsavg
    rfl

/-- Witness for C10 at the concrete resampled one-vertex space, before and
after compute_coordinates. -/
theorem resampled_space_standard_space_key_error_witness :
    (∃ e, Interpolator.interpolate_surface exPrims exInterpState
      (Hemisphere.resample exSurfacePrim exNativeSpace "std"
        [((0 : ℚ), (0 : ℚ), (1 : ℚ))] (some [(0, 0, 0)]))
      "normals_sine" true 1 = Except.error e) ∧
    Hemisphere.compute_coordinates exPrims ((0 : ℚ), (0 : ℚ), (0 : ℚ))
      (Hemisphere.resample exSurfacePrim exNativeSpace "std"
        [((0 : ℚ), (0 : ℚ), (1 : ℚ))] (some [(0, 0, 0)])) =
      Except.ok exResampledComputed ∧
    (∃ e, Interpolator.interpolate_surface exPrims exInterpState
      exResampledComputed "pial" true 1 = Except.error e) := by
  have h := resampled_space_standard_space_key_error exPrims exInterpState
    exSurfacePrim exNativeSpace "std" [((0 : ℚ), (0 : ℚ), (1 : ℚ))] (some [(0, 0, 0)])
    "normals_sine" 1
  have heq : Hemisphere.compute_coordinates exPrims ((0 : ℚ), (0 : ℚ), (0 : ℚ))
      (Hemisphere.resample exSurfacePrim exNativeSpace "std"
        [((0 : ℚ), (0 : ℚ), (1 : ℚ))] (some [(0, 0, 0)])) =
      Except.ok exResampledComputed := rfl
  have h2 := resampled_space_standard_space_key_error exPrims exInterpState
    exSurfacePrim exNativeSpace "std" [((0 : ℚ), (0 : ℚ), (1 : ℚ))] (some [(0, 0, 0)])
    "pial" 1
  exact ⟨h.1, heq, h2.2.1 ((0 : ℚ), (0 : ℚ), (0 : ℚ)) exResampledComputed heq⟩

/-- Counterexample for C4: a working directory with one split volume and no
displacement-field files makes Interpolator.prepare fail with its
AssertionError instead of completing. -/
theorem prepare_missing_warp_counterexample :
    exWorkDirNoWarp.nii_fns.length = 1 ∧ exWorkDirNoWarp.warp_fns = [] ∧
    Interpolator.prepare exPrims exWorkDirNoWarp [] = Except.error "AssertionError" :=
  ⟨rfl, rfl, rfl⟩

/-- C4 amended: prepare completes exactly when the working directory holds
as many displacement-field files as split-volume files (the assertion at
the glob results); with split volumes present and no displacement fields it
raises AssertionError.  The displacement field is optional only at the
interpolate_original_space level, whose computation with warp_data absent
skips the correction and ignores the warp affines entirely. -/
theorem prepare_requires_matching_warp_files :
    (∀ (P : Prims) (wd : WorkDir) (orders : List Nat),
      (Interpolator.prepare P wd orders).isOk
        = decide (wd.nii_fns.length = wd.warp_fns.length)) ∧
    (∀ (P : Prims) (nd : List Grid3) (na : List Mat4) (coords : List HVec)
      (sh : List Nat) (lta ref : Mat4) (hmc : List Mat4) (wa wa2 : List Mat4) (o : Nat),
      interpolate_original_space P nd na coords sh lta ref hmc none wa o =
        interpolate_original_space P nd na coords sh lta ref hmc none wa2 o) := by
  constructor
  · intro P wd orders
    unfold Interpolator.prepare
    by_cases h : wd.nii_fns.length = wd.warp_fns.length
    · rw [if_pos h]
      simp only [h, decide_eq_true_eq]
      rfl
    · rw [if_neg h]
      simp only [h, decide_eq_false_iff_not]
      rfl
  · intro P nd na coords sh lta ref hmc wa wa2 o
    rfl

/-- C1: interpolate_volume(order) runs the volumetric interpolator on the
whole-brain voxel grid prepared for the subject, using the per-order
filtered data, and returns its stacked per-volume output with no mesh
transport applied; the stack holds one entry per source volume and the
whole-brain grid shape is 3-dimensional (so no depth-axis collapse is
applied to it). -/
theorem interpolate_volume_runs_interpolator (P : Prims) (st : InterpState) (order : Nat)
    (hlen : st.nii_affines.length = st.nii_data.length)
    (hcache : ∀ e ∈ st.filtered, (e.2 : List Grid3).length = st.nii_data.length) :
    Interpolator.interpolate_volume P st order =
      interpolate_original_space P (Interpolator.get_filtered_data P st order)
        st.nii_affines st.vol_coords st.vol_shape st.lta st.ref_to_t1 st.hmc
        (some st.warp_data) st.warp_affines order ∧
    (Interpolator.interpolate_volume P st order).length = st.nii_data.length ∧
    (∀ (g : Grid3) (affine : Mat4) (m : Nat),
      (canonical_volume_coords g affine m).2.length = 3) := by
  have hfl : (Interpolator.get_filtered_data P st order).length = st.nii_data.length := by
    unfold Interpolator.get_filtered_data
    split
    · cases hl : st.filtered.lookup order with
      | none => simp
      | some d => exact hcache (order, d) (lookup_mem st.filtered order d hl)
    · rfl
  refine ⟨rfl, ?_, ?_⟩
  · show (interpolate_original_space P (Interpolator.get_filtered_data P st order)
      st.nii_affines st.vol_coords st.vol_shape st.lta st.ref_to_t1 st.hmc
      (some st.warp_data) st.warp_affines order).length = st.nii_data.length
    rw [interpolate_original_space_length, hfl, hlen, min_self]
  · intro g affine m
    rfl

/-- Witness for C1 at a concrete one-volume state. -/
theorem interpolate_volume_runs_interpolator_witness :
    exInterpState1.nii_affines.length = exInterpState1.nii_data.length ∧
    (∀ e ∈ exInterpState1.filtered,
      (e.2 : List Grid3).length = exInterpState1.nii_data.length) ∧
    Interpolator.interpolate_volume exPrims exInterpState1 1 =
      interpolate_original_space exPrims
        (Interpolator.get_filtered_data exPrims exInterpState1 1)
        exInterpState1.nii_affines exInterpState1.vol_coords exInterpState1.vol_shape
        exInterpState1.lta exInterpState1.ref_to_t1 exInterpState1.hmc
        (some exInterpState1.warp_data) exInterpState1.warp_affines 1 ∧
    (Interpolator.interpolate_volume exPrims exInterpState1 1).length =
      exInterpState1.nii_data.length := by
  have hc : ∀ e ∈ exInterpState1.filtered,
      (e.2 : List Grid3).length = exInterpState1.nii_data.length := by
    intro e he
    simp [exInterpState1] at he
  have h := interpolate_volume_runs_interpolator exPrims exInterpState1 1 rfl hc
  exact ⟨rfl, hc, h.1, h.2.1⟩
